import Mathlib

/-!
Verification of the `mctools` motif-clustering tools (mcc.c, mcstats.c, mcextract.c)
against their natural-language specification.

The programs analyse how instances ("mappings") of a small pattern graph (the motif M)
overlap inside a host graph G.  The subgraph-isomorphism enumeration itself is delegated
to the external igraph library (`igraph_get_subisomorphisms_vf2`); we model it as an
oracle parameter and also provide an executable reference enumerator `subisoMaps`
(all injective, edge-preserving assignments of pattern vertices to host vertices, which
is the documented semantics of the igraph call) for evaluating concrete instances.

Node identifiers are modelled as `Int`, because the programs use the slot value `-1`
as an in-band sentinel marking an invalidated raw mapping.  Machine `long int` /
`igraph_integer_t` arithmetic in the sources never approaches overflow in the
quantities modelled here (counts of list elements), so `Nat`/`Int` model it directly.
C `double` results are modelled as `ℚ`/`ℝ`; a division whose divisor is zero produces
a non-finite IEEE value (NaN or ±inf) in the C code, which we model as `Option.none`.
-/

namespace MCTools

/-- A graph as the programs use it through igraph: a node count, a directedness flag
and an edge list (duplicates permitted transiently; node ids are `0 .. n-1`). -/
structure Graph where
  n : Nat
  directed : Bool
  edges : List (Int × Int)
  deriving DecidableEq, Repr

/-- Adjacency test: for directed graphs the edge `(a, b)` must appear as stored;
for undirected graphs either orientation matches. -/
def Graph.hasEdge (G : Graph) (a b : Int) : Bool :=
  G.edges.any (fun e => (e.1 = a && e.2 = b) || (!G.directed && e.1 = b && e.2 = a))

/-- Edge count of the subgraph of `G` induced on the vertex list `vs`
(`igraph_induced_subgraph` / `igraph_subgraph` followed by `igraph_ecount`). -/
def inducedEdgeCount (G : Graph) (vs : List Int) : Nat :=
  (G.edges.filter (fun e => vs.contains e.1 && vs.contains e.2)).length

/-- All length-`k` tuples over node ids `0 .. n-1`, head = image of pattern vertex 0. -/
def tuples (n : Nat) : Nat → List (List Int)
  | 0 => [[]]
  | k + 1 => (List.range n).flatMap (fun v => (tuples n k).map (fun rest => (Int.ofNat v) :: rest))

/-- Whether the assignment `m` of pattern vertices to host vertices is a subgraph
isomorphism: injective, and every motif edge is carried to a host edge. -/
def isSubisoMap (G M : Graph) (m : List Int) : Bool :=
  decide m.Nodup && M.edges.all (fun e => G.hasEdge (m.getD e.1.toNat 0) (m.getD e.2.toNat 0))

/-- Executable reference model of `igraph_get_subisomorphisms_vf2 (G, M)`: the list of
all injective edge-preserving assignments of the `M.n` pattern vertices to host nodes. -/
def subisoMaps (G M : Graph) : List (List Int) :=
  (tuples G.n M.n).filter (isSubisoMap G M)

/-- Invalidate a raw mapping the way all three tools do: write the sentinel `-1`
into slot 0 (`VECTOR(*curMap)[0] = -1`). -/
def invalidate (m : List Int) : List Int := m.set 0 (-1)

/-- A raw mapping is still valid when slot 0 does not hold the sentinel. -/
def validMap (m : List Int) : Bool := m.headD 0 != -1

/-- Raw-mapping cleanup as implemented in mcc.c (`motif_clustering`, `motif_count`):
for directed hosts, a mapping is invalidated iff the subgraph induced on its vertex
set has an edge count different from the motif EDGE count (`igraph_ecount(motif)`).
Undirected hosts skip the cleanup. -/
def cleanupMcc (G M : Graph) (maps : List (List Int)) : List (List Int) :=
  if G.directed then
    maps.map (fun m => if inducedEdgeCount G m ≠ M.edges.length then invalidate m else m)
  else maps

/-- Raw-mapping cleanup as implemented in mcstats.c (`motif_clustering_stats`) and
mcextract.c (`motif_extract`): for directed hosts, a mapping is invalidated iff the
subgraph induced on its vertex set has an edge count different from the motif VERTEX
count (`igraph_vcount(M)`).  Undirected hosts skip the cleanup. -/
def cleanupMcstats (G M : Graph) (maps : List (List Int)) : List (List Int) :=
  if G.directed then
    maps.map (fun m => if inducedEdgeCount G m ≠ M.n then invalidate m else m)
  else maps

/-- The surviving-mapping count `actMaps` of mcc.c: for directed hosts the number of
mappings passing the edge-count test (counted during cleanup), otherwise all mappings. -/
def actMapsCount (G M : Graph) (maps : List (List Int)) : Nat :=
  if G.directed then
    (maps.filter (fun m => inducedEdgeCount G m == M.edges.length)).length
  else maps.length

/-- Unique motif-instance count of mcc.c (`motif_count`), parametrised by the raw
mapping list and the motif symmetry count, both of which the program obtains from the
igraph oracle. -/
def motifCountFrom (G M : Graph) (rotSym : Nat) (maps : List (List Int)) : Nat :=
  actMapsCount G M maps / rotSym

/-- `motif_count` of mcc.c with the oracle supplied explicitly.  The program computes
`rotSym` as the number of subisomorphisms of the motif onto itself. -/
def motif_count (oracle : Graph → Graph → List (List Int)) (G M : Graph) : Nat :=
  motifCountFrom G M (oracle M M).length (oracle G M)

/-- Vertex-set sameness test of the deduplication loops in mcstats.c and mcextract.c:
count the slots `s` of `cur` whose value occurs somewhere in `prev`; the two mappings
denote the same instance iff that count equals the motif vertex count. -/
def sameVertexSet (sz : Nat) (cur prev : List Int) : Bool :=
  cur.countP (fun a => decide (a ∈ prev)) == sz

/-- Deduplication loop of mcstats.c / mcextract.c: walk the cleaned raw list, drop
sentinel-invalidated mappings, and append a mapping to the accumulator `acc` (the
`actMaps` list) only when no previously accepted mapping has the same vertex set. -/
def dedupMapsAux (sz : Nat) : List (List Int) → List (List Int) → List (List Int)
  | [], acc => acc
  | cur :: rest, acc =>
    if !(validMap cur) then dedupMapsAux sz rest acc
    else if acc.any (fun prev => sameVertexSet sz cur prev) then dedupMapsAux sz rest acc
    else dedupMapsAux sz rest (acc ++ [cur])

/-- The deduplicated unique-instance list (`actMaps`) built from a cleaned raw list. -/
def dedupMaps (sz : Nat) (maps : List (List Int)) : List (List Int) :=
  dedupMapsAux sz maps []

/-- The shared-vertex count a single pair contributes in mcc.c `motif_clustering`:
for each slot of `curi`, scan `curj` for an equal value (`found++` with inner break). -/
def foundCount (xi xj : List Int) : Nat :=
  xi.countP (fun a => decide (a ∈ xj))

/-- `totSharedVerts` accumulation of mcc.c `motif_clustering`: over every pair `i < j`
of still-valid mappings, add the shared-vertex count, but only when it is strictly
below the motif size. -/
def totSharedVerts (sz : Nat) : List (List Int) → Nat
  | [] => 0
  | x :: rest =>
    (if validMap x then
      (rest.filter validMap).foldl
        (fun acc y => if foundCount x y < sz then acc + foundCount x y else acc) 0
     else 0) + totSharedVerts sz rest

/-- `posSharedVerts` accumulation of mcc.c `motif_clustering`:
`for i in [0, uniqueMotifs): posSharedVerts += (motifSize-1)*(uniqueMotifs-i-1)`. -/
def posSharedVerts (sz u : Nat) : Nat :=
  (List.range u).foldl (fun acc i => acc + (sz - 1) * (u - i - 1)) 0

/-- `motif_clustering` of mcc.c, parametrised by the oracle data (raw mapping list and
motif symmetry count).  The final C statement divides two doubles; a zero
`posSharedVerts` makes that result non-finite (NaN for a zero numerator), which is
modelled as `none`. -/
def motifClusteringFrom (G M : Graph) (rotSym : Nat) (maps : List (List Int)) :
    Option ℚ :=
  let cleaned := cleanupMcc G M maps
  let uniqueMotifs := actMapsCount G M maps / rotSym
  let totShared := totSharedVerts M.n cleaned
  let actShared := totShared / (rotSym * rotSym)
  let posShared := posSharedVerts M.n uniqueMotifs
  if posShared = 0 then none else some ((actShared : ℚ) / (posShared : ℚ))

/-- `motif_clustering` of mcc.c with the oracle supplied explicitly. -/
def motif_clustering (oracle : Graph → Graph → List (List Int)) (G M : Graph) :
    Option ℚ :=
  motifClusteringFrom G M (oracle M M).length (oracle G M)

/-- Accumulation loop of `z_score` in mcc.c: a single pass over the sample vector
summing `sumMCC`, `sumMCC2` and counting `actualSamples` over the entries `≥ 0.0`. -/
def zScoreLoop (samples : List ℚ) : ℚ × ℚ × Nat :=
  samples.foldl
    (fun acc v => if (0 : ℚ) ≤ v then (acc.1 + v, acc.2.1 + v ^ 2, acc.2.2 + 1) else acc)
    (0, 0, 0)

/-- `z_score` of mcc.c: `(mcc - avgMCC) / sqrt(avgMCC2 - avgMCC^2)` with the averages
taken over the `actualSamples` non-sentinel entries.  When `actualSamples = 0` the C
code computes `0/0` twice and obtains NaN, modelled as `none`. -/
noncomputable def z_score (mcc : ℚ) (samples : List ℚ) : Option ℝ :=
  let acc := zScoreLoop samples
  if acc.2.2 = 0 then none
  else
    let avgMCC : ℝ := (acc.1 : ℝ) / (acc.2.2 : ℝ)
    let avgMCC2 : ℝ := (acc.2.1 : ℝ) / (acc.2.2 : ℝ)
    some (((mcc : ℝ) - avgMCC) / Real.sqrt (avgMCC2 - avgMCC ^ 2))

/-- Outcome of one `calc_sample` run in mcc.c: `success` carries the returned graph,
`failure` is the `return 1` path, and `outOfFuel` marks that the modelled while loop
was cut off by the explicit fuel (the C loop has no a-priori iteration bound because
accepted steps reset the trial counter). -/
inductive SampleResult where
  | success (g : Graph)
  | failure
  | outOfFuel
  deriving DecidableEq, Repr

/-- Mutable state of the `calc_sample` while loop. -/
structure SampleState where
  G : Graph
  oldCount : Nat
  curCount : Nat
  motifPlaceTrial : Nat
  curAdd : Nat
  ridx : Nat
  deriving Repr

/-- One batch of random motif placements: for each of the `curAdd` copies, draw a
uniform random node id (`rand() % nodes`) for every motif vertex and emit the motif's
edges under that assignment.  `rs` is the stream of raw `rand()` values and `base` the
position already consumed. -/
def newMotifEdges (motif : Graph) (rs : Nat → Nat) (nodes : Nat) (base curAdd : Nat) :
    List (Int × Int) :=
  (List.range curAdd).flatMap (fun j =>
    let mNodes := (List.range motif.n).map
      (fun k => Int.ofNat (rs (base + j * motif.n + k) % nodes))
    motif.edges.map (fun e => (mNodes.getD e.1.toNat 0, mNodes.getD e.2.toNat 0)))

/-- Code after the `calc_sample` while loop exits without `break`:
`if (curCount > count) return 1;` else the current graph is returned. -/
def finishSample (count : Nat) (st : SampleState) : SampleResult :=
  if st.curCount > count then .failure else .success st.G

/-- One iteration of the `calc_sample` while loop body: build `altG` by adding a batch
of random motif copies, recount, then accept / break / reject exactly as the three C
branches do. -/
def sampleStep (oracle : Graph → Graph → List (List Int)) (motif : Graph)
    (count nodes : Nat) (rs : Nat → Nat) (st : SampleState) :
    SampleState ⊕ SampleResult :=
  let altG : Graph :=
    { st.G with edges := st.G.edges ++ newMotifEdges motif rs nodes st.ridx st.curAdd }
  let curCount := motif_count oracle altG motif
  let ridx := st.ridx + st.curAdd * motif.n
  if curCount < count ∧ curCount ≠ st.oldCount then
    let newAdd := if (count - curCount) / 3 < 1 then 1 else (count - curCount) / 3
    let curAdd := if newAdd < st.curAdd then newAdd else st.curAdd
    Sum.inl ⟨altG, curCount, curCount, 0, curAdd, ridx⟩
  else if curCount = count then
    Sum.inr (.success altG)
  else
    let curAdd := st.curAdd / 3
    let next :=
      if curAdd ≤ 1 then (1, st.motifPlaceTrial + 1) else (curAdd, st.motifPlaceTrial)
    Sum.inl ⟨st.G, st.oldCount, curCount, next.2, next.1, ridx⟩

/-- The `calc_sample` while loop: guard `motifPlaceTrial < MAX_MOTIF_TRIALS` checked
at the top, body `sampleStep`, post-loop check `finishSample`. -/
def calcSampleLoop (oracle : Graph → Graph → List (List Int)) (motif : Graph)
    (count nodes maxTrials : Nat) (rs : Nat → Nat) :
    Nat → SampleState → SampleResult
  | fuel, st =>
    if st.motifPlaceTrial < maxTrials then
      match fuel with
      | 0 => .outOfFuel
      | fuel + 1 =>
        match sampleStep oracle motif count nodes rs st with
        | Sum.inl st2 => calcSampleLoop oracle motif count nodes maxTrials rs fuel st2
        | Sum.inr r => r
    else finishSample count st

/-- `calc_sample` of mcc.c: start from the empty graph on `nodes` vertices with the
host's directedness, with initial batch size `max(count/5, 1)`. -/
def calc_sample (oracle : Graph → Graph → List (List Int)) (motif : Graph)
    (count nodes maxTrials : Nat) (dir : Bool) (rs : Nat → Nat) (fuel : Nat) :
    SampleResult :=
  let curAdd := if count / 5 < 1 then 1 else count / 5
  calcSampleLoop oracle motif count nodes maxTrials rs fuel
    { G := ⟨nodes, dir, []⟩, oldCount := 0, curCount := 0,
      motifPlaceTrial := 0, curAdd := curAdd, ridx := 0 }

/-- Normal form of an edge used by the `igraph_simplify` model: undirected graphs
treat `(a, b)` and `(b, a)` as the same edge. -/
def edgeKey (dir : Bool) (e : Int × Int) : Int × Int :=
  if dir then e else (min e.1 e.2, max e.1 e.2)

/-- Model of `igraph_simplify`: drop duplicate edges (and, unless `keepLoops`,
self-loops), keeping first occurrences. -/
def simplifyEdges (dir keepLoops : Bool) (es : List (Int × Int)) : List (Int × Int) :=
  es.foldl (fun acc e =>
    if !keepLoops && e.1 == e.2 then acc
    else if acc.any (fun f => edgeKey dir f == edgeKey dir e) then acc
    else acc ++ [e]) []

/-- Simplified graph (`igraph_simplify`). -/
def Graph.simplify (G : Graph) (keepLoops : Bool) : Graph :=
  { G with edges := simplifyEdges G.directed keepLoops G.edges }

/-- One iteration of the inner vertex loop of `motif_extract` in mcextract.c:
look the host node id `curMap[j]` up in `nMaps` (`igraph_vector_search`, first
position); reuse its output id when present, otherwise assign the next fresh output
id, append the host id to `nMaps` and count the vertex in `toAdd`.  The state is
`(newMap, nMaps, toAdd)`. -/
def extractStep (curMap : List Int) (acc : List Int × List Int × Nat) (j : Nat) :
    List Int × List Int × Nat :=
  let v := curMap.getD j 0
  match acc.2.1.findIdx? (fun w => w = v) with
  | some nID => (acc.1 ++ [(nID : Int)], acc.2.1, acc.2.2)
  | none => (acc.1 ++ [(acc.2.1.length : Int)], acc.2.1 ++ [v], acc.2.2 + 1)

/-- Inner vertex loop of `motif_extract` for one accepted mapping.
Returns `(newMap, nMaps, toAdd)`. -/
def extractMapLoop (mSize : Nat) (curMap nMaps : List Int) :
    List Int × List Int × Nat :=
  (List.range mSize).foldl (extractStep curMap) ([], nMaps, 0)

/-- Body of the motif-growing loop of `motif_extract`: extend the node mapping, add the
`toAdd` missing vertices to the output graph, then add the motif's edges under the
translated mapping. -/
def extractAddMotif (M : Graph) (acc : Graph × List Int) (curMap : List Int) :
    Graph × List Int :=
  let s := extractMapLoop M.n curMap acc.2
  let outG2 : Graph :=
    { n := acc.1.n + s.2.2, directed := acc.1.directed,
      edges := acc.1.edges ++ M.edges.map
        (fun e => (s.1.getD e.1.toNat 0, s.1.getD e.2.toNat 0)) }
  (outG2, s.2.1)

/-- The output-graph construction of `motif_extract` over the accepted mapping list,
starting from the empty graph on zero vertices. -/
def motifExtractBuild (M : Graph) (dir : Bool) (actMaps : List (List Int)) :
    Graph × List Int :=
  actMaps.foldl (extractAddMotif M) (⟨0, dir, []⟩, [])

/-- `motif_extract` of mcextract.c: enumerate raw mappings (oracle), clean them up
(vertex-count comparison variant), deduplicate, grow the output graph motif by motif,
finally remove duplicate edges. -/
def motif_extract (oracle : Graph → Graph → List (List Int)) (G M : Graph) :
    Graph × List Int :=
  let maps := cleanupMcstats G M (oracle G M)
  let actMaps := dedupMaps M.n maps
  let r := motifExtractBuild M G.directed actMaps
  (r.1.simplify false, r.2)

/-- `merge_motifs` of mcstats.c: merge two copies of the motif `M` that share the
overlap given by pattern-vertex index lists `m1`, `m2` (copy-2 vertex `m2[i]` is
identified with copy-1 vertex `m1[i]`); fresh ids continue from `M.n`.  Duplicate
edges are removed (`igraph_simplify(res, TRUE, FALSE)`), self-loops kept. -/
def merge_motifs (M : Graph) (m1 m2 : List Int) : Graph :=
  let remaining := M.n - m1.length
  let map0 : List Int := (List.range M.n).map (fun _ => (-1 : Int))
  let map1 := (List.range m1.length).foldl
    (fun (mp : List Int) i => mp.set (m2.getD i 0).toNat (m1.getD i 0)) map0
  let map2 := ((List.range M.n).foldl
    (fun (acc : List Int × Int) i =>
      if acc.1.getD i 0 = -1 then (acc.1.set i acc.2, acc.2 + 1) else acc)
    (map1, (M.n : Int))).1
  let newEdges := M.edges.map (fun e => (map2.getD e.1.toNat 0, map2.getD e.2.toNat 0))
  Graph.simplify ⟨M.n + remaining, M.directed, M.edges ++ newEdges⟩ true

/-- Number of subisomorphisms of pattern `b` into host `a`
(`igraph_count_subisomorphisms_vf2(a, b, ...)`), via the reference enumerator. -/
def subisoCount (a b : Graph) : Nat := (subisoMaps a b).length

/-- `add_cluster_type` of mcstats.c: merge the two copies, reject the merge when
either copy's re-extracted vertex set does not reproduce the motif's edge count, test
against the existing catalogue (same vertex and edge count plus a positive
subisomorphism count means already present) and append when new. -/
def add_cluster_type (cTypes : List Graph) (M : Graph) (m1 m2 : List Int) :
    List Graph :=
  let G := merge_motifs M m1 m2
  let seq1 : List Int := (List.range M.n).map Int.ofNat
  if inducedEdgeCount G seq1 ≠ M.edges.length then cTypes
  else
    let seq2 : List Int :=
      m1 ++ (List.range (M.n - m1.length)).map (fun i => (M.n : Int) + Int.ofNat i)
    if inducedEdgeCount G seq2 ≠ M.edges.length then cTypes
    else
      let found := cTypes.any (fun curG =>
        G.n == curG.n && G.edges.length == curG.edges.length
          && decide (0 < subisoCount G curG))
      if found then cTypes else cTypes ++ [G]

/-- Overlap-1 catalogue loop of `motif_clustering_stats`. -/
def clusterTypesOverlap1 (M : Graph) (ts : List Graph) : List Graph :=
  (List.range M.n).foldl (fun a i =>
    (List.range M.n).foldl (fun b i2 =>
      add_cluster_type b M [Int.ofNat i] [Int.ofNat i2]) a) ts

/-- Overlap-2 catalogue loop of `motif_clustering_stats`. -/
def clusterTypesOverlap2 (M : Graph) (ts : List Graph) : List Graph :=
  (List.range M.n).foldl (fun a i =>
    (List.range M.n).foldl (fun b j =>
      if i ≠ j then
        (List.range M.n).foldl (fun c i2 =>
          (List.range M.n).foldl (fun d j2 =>
            if i2 ≠ j2 then
              add_cluster_type d M [Int.ofNat i, Int.ofNat j]
                [Int.ofNat i2, Int.ofNat j2]
            else d) c) b
      else b) a) ts

/-- Overlap-3 catalogue loop of `motif_clustering_stats`. -/
def clusterTypesOverlap3 (M : Graph) (ts : List Graph) : List Graph :=
  (List.range M.n).foldl (fun a i =>
    (List.range M.n).foldl (fun b j =>
      (List.range M.n).foldl (fun c k =>
        if i ≠ j ∧ i ≠ k ∧ j ≠ k then
          (List.range M.n).foldl (fun d i2 =>
            (List.range M.n).foldl (fun e j2 =>
              (List.range M.n).foldl (fun f k2 =>
                if i2 ≠ j2 ∧ i2 ≠ k2 ∧ j2 ≠ k2 then
                  add_cluster_type f M [Int.ofNat i, Int.ofNat j, Int.ofNat k]
                    [Int.ofNat i2, Int.ofNat j2, Int.ofNat k2]
                else f) e) d) c
        else c) b) a) ts

/-- Catalogue construction of `motif_clustering_stats` (PART I): overlaps
`1 .. M.n - 1`, hand-specialised for overlaps 1, 2 and 3; any other overlap hits the
error path (only 3- and 4-node motifs are supported), modelled as `none`. -/
def buildClusterTypes (M : Graph) : Option (List Graph) :=
  (List.range (M.n - 1)).foldl (fun acc ov =>
    match acc with
    | none => none
    | some ts =>
      if ov + 1 = 1 then some (clusterTypesOverlap1 M ts)
      else if ov + 1 = 2 then some (clusterTypesOverlap2 M ts)
      else if ov + 1 = 3 then some (clusterTypesOverlap3 M ts)
      else none) (some [])

/-- `clean_subgraph` of mcstats.c: `none` models the `return 1` taken when the two
instances' node lists share no value.  Otherwise: start from a copy of the motif
(copy 1), add one vertex per node of copy 2 not shared with copy 1, then add every
host edge adjacent to such a new node whose two endpoints both lie in copy 2's node
list, translated through the first-position lookup in the combined map; finally
remove duplicate edges and loops (`igraph_simplify(res, -1, -1)`). -/
def clean_subgraph (G M : Graph) (m1Nodes m2Nodes : List Int) : Option Graph :=
  if m2Nodes.all (fun v => !(m1Nodes.contains v)) then none
  else
    let extras := m2Nodes.filter (fun v => !(m1Nodes.contains v))
    let map := m1Nodes ++ extras
    let added := extras.flatMap (fun v =>
      (G.edges.filter (fun e => e.1 == v || e.2 == v)).filterMap (fun e =>
        if m2Nodes.contains e.1 && m2Nodes.contains e.2 then
          match map.findIdx? (fun w => w = e.1), map.findIdx? (fun w => w = e.2) with
          | some p1, some p2 => some ((p1 : Int), (p2 : Int))
          | _, _ => none
        else none))
    some (Graph.simplify ⟨M.n + extras.length, M.directed, M.edges ++ added⟩ false)

/-- Executable model of `igraph_isomorphic`: the two graphs have equal vertex counts,
matching directedness, and some relabelling makes their adjacency relations agree. -/
def isIsoB (a b : Graph) : Bool :=
  a.n == b.n && a.directed == b.directed &&
  ((tuples a.n a.n).filter (fun p => decide p.Nodup)).any (fun p =>
    (List.range a.n).all (fun u => (List.range a.n).all (fun v =>
      a.hasEdge (Int.ofNat u) (Int.ofNat v) == b.hasEdge (p.getD u 0) (p.getD v 0))))

/-- Which bucket one examined instance pair increments in PART II of
`motif_clustering_stats`: `some cTypes.length` is the unclustered bucket (the
`res == 1` branch), `some k` with `k < cTypes.length` the first catalogue entry found
isomorphic to the pair's merged subgraph, and `none` means the scan over the catalogue
found no isomorphic entry, so no count is incremented. -/
def pairBucket (cTypes : List Graph) (G M : Graph) (mi mj : List Int) : Option Nat :=
  match clean_subgraph G M mi mj with
  | none => some cTypes.length
  | some sub => cTypes.findIdx? (fun t => isIsoB sub t)

/-! Concrete graphs used to evaluate the programs on explicit inputs. -/

/-- The directed three-node chain `0 → 1 → 2` (3 vertices, 2 edges), a legitimate
3-node motif isoclass; also usable as a host graph. -/
def chain3 : Graph := ⟨3, true, [(0, 1), (1, 2)]⟩

/-- The undirected triangle on three nodes. -/
def triangle3 : Graph := ⟨3, false, [(0, 1), (0, 2), (1, 2)]⟩

/-- The undirected three-node path `0 - 1 - 2` (2 edges), the undirected P3 motif. -/
def p3u : Graph := ⟨3, false, [(0, 1), (1, 2)]⟩

/-- Undirected host made of two triangles `{0,1,2}` and `{2,3,4}` sharing vertex 2. -/
def host5 : Graph := ⟨5, false, [(0, 1), (0, 2), (1, 2), (2, 3), (2, 4), (3, 4)]⟩

end MCTools

namespace MCTools

set_option maxRecDepth 100000

/-- Claim C2 (code_bug evaluation).  The cleanup pass of mcstats.c/mcextract.c
invalidates the exact mapping `[0,1,2]` of the directed chain motif into the directed
chain host, although the induced subgraph has exactly the pattern's edge count: those
two tools compare the induced edge count against `igraph_vcount(M)` (the pattern's
VERTEX count, here 3) instead of the pattern's edge count (here 2).  The cleanup of
mcc.c compares against the edge count and keeps the mapping, as the claim states. -/
theorem c2_cleanup_compares_vertex_count :
    cleanupMcstats chain3 chain3 [[0, 1, 2]] = [[-1, 1, 2]]
    ∧ inducedEdgeCount chain3 [0, 1, 2] = chain3.edges.length
    ∧ cleanupMcc chain3 chain3 [[0, 1, 2]] = [[0, 1, 2]] := by decide

/-- Claim C1 (code_bug evaluation).  `calc_sample` asked for `targetCount = 3` chain
motifs on 2 nodes with `maxTrials = 0` returns SUCCESS with the empty graph: the
while guard fails immediately and the post-loop check `if (curCount > count)` does not
catch `curCount = 0 < 3`, so the returned "sample" has 0 motif instances, not the
claimed exact `targetCount` (the node count, 2, is as claimed). -/
theorem c1_success_without_target_count :
    calc_sample subisoMaps chain3 3 2 0 true (fun _ => 0) 5
      = .success (⟨2, true, []⟩ : Graph)
    ∧ motif_count subisoMaps (⟨2, true, []⟩ : Graph) chain3 = 0
    ∧ (0 : Nat) ≠ 3 := by decide

/-- Claim C8 (code_bug evaluation).  `calc_sample` with `maxTrials = 0`,
`targetCount = 1 > 0` on a nonzero (1-node) graph does not report a synthesis
failure: it returns SUCCESS with the empty graph, because the only failure condition
checked after the loop is `curCount > count`. -/
theorem c8_zero_trials_success :
    calc_sample subisoMaps chain3 1 1 0 true (fun _ => 0) 5
      = .success (⟨1, true, []⟩ : Graph) := by decide

/-- Claim C9 counterexample.  With `targetCount = 0` but `maxTrials = 1`,
`calc_sample` enters the construction loop, adds one random motif copy (two self-loop
edges under the all-zero random stream on a single node), finds the motif count still
0, accepts, and returns that NON-empty graph: the claim that the synthesizer returns
the empty graph immediately is false. -/
theorem c9_counterexample :
    calc_sample subisoMaps chain3 0 1 1 true (fun _ => 0) 5
      = .success (⟨1, true, [(0, 0), (0, 0)]⟩ : Graph)
    ∧ (⟨1, true, [(0, 0), (0, 0)]⟩ : Graph).edges ≠ [] := by decide

/-- Claim C5 counterexample.  On the undirected triangle host with the undirected P3
motif, mcc.c's division count (`actMaps / rotSym = 6 / 2 = 3`) differs from the
deduplicated unique-instance list of mcstats.c/mcextract.c, which has a single entry
(all six raw mappings share the vertex set `{0,1,2}`). -/
theorem c5_counterexample :
    motif_count subisoMaps triangle3 p3u = 3
    ∧ (dedupMaps p3u.n (cleanupMcstats triangle3 p3u (subisoMaps triangle3 p3u))).length
        = 1
    ∧ (3 : Nat) ≠ 1 := by decide

/-- Claim C6 counterexample.  On `host5` (two triangles sharing vertex 2) with the
undirected P3 motif, the distinct unique instances `[0,1,2]` and `[2,3,4]` overlap
(they share vertex 2), so the claim requires exactly one clustering-type bucket to be
incremented for this pair; but the pair's merged subgraph (the P3 pattern copy plus
all three edges of the second triangle, 5 edges in total) is isomorphic to no
catalogue entry (every catalogue entry for P3 has at most 4 edges), so the
classification loop increments NO bucket at all. -/
theorem c6_counterexample :
    (buildClusterTypes p3u).isSome
    ∧ [0, 1, 2] ∈ dedupMaps p3u.n (cleanupMcstats host5 p3u (subisoMaps host5 p3u))
    ∧ [2, 3, 4] ∈ dedupMaps p3u.n (cleanupMcstats host5 p3u (subisoMaps host5 p3u))
    ∧ ([0, 1, 2] : List Int) ≠ [2, 3, 4]
    ∧ (clean_subgraph host5 p3u [0, 1, 2] [2, 3, 4]).isSome
    ∧ pairBucket ((buildClusterTypes p3u).getD []) host5 p3u [0, 1, 2] [2, 3, 4]
        = none := by decide

/-- Helper: a successful `findIdx?` scan yields an index below `start + length`. -/
theorem findIdx?_some_lt {α : Type} (p : α → Bool) :
    ∀ (l : List α) (i k : Nat), List.findIdx? p l i = some k → k < i + l.length := by
  intro l
  induction l with
  | nil => intro i k h; simp [List.findIdx?_nil] at h
  | cons x xs ih =>
    intro i k h
    rw [List.findIdx?_cons] at h
    simp only [List.length_cons]
    by_cases hp : p x = true
    · rw [if_pos hp] at h
      injection h with h
      omega
    · rw [if_neg hp] at h
      have hk := ih (i + 1) k h
      omega

/-- Helper: a failed `findIdx?` scan for equality with `v` means `v` is absent. -/
theorem findIdx?_none_not_mem {α : Type} [DecidableEq α] (v : α) :
    ∀ (l : List α) (i : Nat),
      List.findIdx? (fun w => w = v) l i = none → v ∉ l := by
  intro l
  induction l with
  | nil => intro i _ hv; simp at hv
  | cons x xs ih =>
    intro i h hv
    rw [List.findIdx?_cons] at h
    by_cases hp : (fun w => decide (w = v)) x = true
    · rw [if_pos hp] at h; exact Option.noConfusion h
    · rw [if_neg hp] at h
      have hx : ¬ x = v := by simpa using hp
      rcases List.mem_cons.mp hv with h1 | h2
      · exact hx h1.symm
      · exact ih (i + 1) h h2

/-- Helper: `clean_subgraph` returns `none` exactly on disjoint node lists. -/
theorem clean_subgraph_none_iff (G M : Graph) (mi mj : List Int) :
    clean_subgraph G M mi mj = none ↔ mj.all (fun v => !(mi.contains v)) = true := by
  unfold clean_subgraph
  by_cases h : mj.all (fun v => !(mi.contains v)) = true
  · simp [h]
  · simp [h]

/-- Claim C6 as amended: for every examined instance pair, the unclustered bucket is
incremented exactly when the two node lists are disjoint (the `clean_subgraph`
pre-check), and in every case at most one bucket is incremented — an overlapping pair
either hits the first catalogue entry isomorphic to its merged subgraph, or (when no
entry matches) no bucket at all; a type bucket and the unclustered bucket are never
both incremented. -/
theorem c6_pair_at_most_one_bucket (cTypes : List Graph) (G M : Graph)
    (mi mj : List Int) :
    (pairBucket cTypes G M mi mj = some cTypes.length
      ↔ mj.all (fun v => !(mi.contains v)) = true)
    ∧ (∀ k, pairBucket cTypes G M mi mj = some k → k ≤ cTypes.length) := by
  cases hcs : clean_subgraph G M mi mj with
  | none =>
    have hdisj := (clean_subgraph_none_iff G M mi mj).mp hcs
    have hdisj2 : ∀ x ∈ mj, x ∉ mi := by simpa using hdisj
    constructor
    · simp [pairBucket, hcs]
      exact hdisj2
    · intro k hk
      simp [pairBucket, hcs] at hk
      omega
  | some sub =>
    have hdisj : ¬ (mj.all (fun v => !(mi.contains v)) = true) := by
      intro hh
      rw [(clean_subgraph_none_iff G M mi mj).mpr hh] at hcs
      exact Option.noConfusion hcs
    have hstep : ∀ k, pairBucket cTypes G M mi mj = some k → k < cTypes.length := by
      intro k hk
      simp only [pairBucket, hcs] at hk
      have := findIdx?_some_lt (fun t => isIsoB sub t) cTypes 0 k hk
      omega
    constructor
    · exact ⟨fun hc => absurd (hstep _ hc) (by omega), fun hc => absurd hc hdisj⟩
    · intro k hk
      exact Nat.le_of_lt (hstep k hk)

/-- Witness for `c6_pair_at_most_one_bucket`: a concrete disjoint pair of P3
instances in `host5` is charged to the unclustered bucket. -/
theorem c6_pair_at_most_one_bucket_witness :
    pairBucket ((buildClusterTypes p3u).getD []) host5 p3u [0, 1, 2] [5, 6, 7]
      = some ((buildClusterTypes p3u).getD []).length :=
  (c6_pair_at_most_one_bucket ((buildClusterTypes p3u).getD []) host5 p3u
    [0, 1, 2] [5, 6, 7]).1.mpr (by decide)

/-- Helper: one `extractStep` keeps the node mapping duplicate-free and keeps the
difference between its length and the `toAdd` counter constant. -/
theorem extractStep_inv (curMap : List Int) (j : Nat) (s : List Int × List Int × Nat)
    (h : s.2.1.Nodup) :
    (extractStep curMap s j).2.1.Nodup
    ∧ (extractStep curMap s j).2.1.length + s.2.2
        = s.2.1.length + (extractStep curMap s j).2.2 := by
  simp only [extractStep]
  cases hf : s.2.1.findIdx? (fun w => w = curMap.getD j 0) with
  | some nID => exact ⟨h, rfl⟩
  | none =>
    have hv : curMap.getD j 0 ∉ s.2.1 := findIdx?_none_not_mem _ _ 0 hf
    constructor
    · simp [List.nodup_append, h]
      simpa using hv
    · simp [List.length_append]
      omega

/-- Helper: the invariant of `extractStep` carried through the whole vertex loop. -/
theorem extractFold_inv (curMap : List Int) :
    ∀ (l : List Nat) (s : List Int × List Int × Nat), s.2.1.Nodup →
      (l.foldl (extractStep curMap) s).2.1.Nodup
      ∧ (l.foldl (extractStep curMap) s).2.1.length + s.2.2
          = s.2.1.length + (l.foldl (extractStep curMap) s).2.2 := by
  intro l
  induction l with
  | nil => intro s h; exact ⟨h, rfl⟩
  | cons j rest ih =>
    intro s h
    have h1 := extractStep_inv curMap j s h
    have h2 := ih (extractStep curMap s j) h1.1
    simp only [List.foldl_cons]
    exact ⟨h2.1, by omega⟩

/-- Helper: growing the output graph by one motif keeps `nMaps` duplicate-free and
the output vertex count equal to the length of `nMaps`. -/
theorem extractAddMotif_inv (M : Graph) (acc : Graph × List Int) (curMap : List Int)
    (h1 : acc.2.Nodup) (h2 : acc.1.n = acc.2.length) :
    (extractAddMotif M acc curMap).2.Nodup
    ∧ (extractAddMotif M acc curMap).1.n = (extractAddMotif M acc curMap).2.length := by
  obtain ⟨hnod, hlen⟩ := extractFold_inv curMap (List.range M.n) ([], acc.2, 0) h1
  have hlen2 : (List.foldl (extractStep curMap) ([], acc.2, 0) (List.range M.n)).2.1.length
      = acc.2.length
        + (List.foldl (extractStep curMap) ([], acc.2, 0) (List.range M.n)).2.2 := by
    simpa using hlen
  constructor
  · simpa [extractAddMotif, extractMapLoop] using hnod
  · simp [extractAddMotif, extractMapLoop]
    omega

/-- Helper: the invariant over the whole accepted-mapping list. -/
theorem motifExtractBuild_inv (M : Graph) (dir : Bool) (actMaps : List (List Int)) :
    (motifExtractBuild M dir actMaps).2.Nodup
    ∧ (motifExtractBuild M dir actMaps).1.n
        = (motifExtractBuild M dir actMaps).2.length := by
  suffices h : ∀ (l : List (List Int)) (acc : Graph × List Int), acc.2.Nodup →
      acc.1.n = acc.2.length →
      (l.foldl (extractAddMotif M) acc).2.Nodup
      ∧ (l.foldl (extractAddMotif M) acc).1.n
          = (l.foldl (extractAddMotif M) acc).2.length by
    exact h actMaps (⟨0, dir, []⟩, []) (by simp) rfl
  intro l
  induction l with
  | nil => intro acc ha1 ha2; exact ⟨ha1, ha2⟩
  | cons m rest ih =>
    intro acc ha1 ha2
    have hs := extractAddMotif_inv M acc m ha1 ha2
    simpa using ih (extractAddMotif M acc m) hs.1 hs.2

/-- Claim C10: after `motif_extract` returns, the node-mapping vector `nMaps` holds
each original host-node id at most once (the new-id-to-original-id mapping is
injective), and the output graph's vertex count equals the length of `nMaps`, so each
output vertex has exactly one original-id entry. -/
theorem c10_extract_node_map (oracle : Graph → Graph → List (List Int)) (G M : Graph) :
    (motif_extract oracle G M).2.Nodup
    ∧ (motif_extract oracle G M).1.n = (motif_extract oracle G M).2.length := by
  have h := motifExtractBuild_inv M G.directed
    (dedupMaps M.n (cleanupMcstats G M (oracle G M)))
  simpa [motif_extract, Graph.simplify] using h

/-- The sums the `z_score` loop accumulates are exactly those over the valid
(non-negative, i.e. non-sentinel) entries of the sample vector. -/
theorem zScoreLoop_go (samples : List ℚ) :
    ∀ acc : ℚ × ℚ × Nat,
      samples.foldl
        (fun acc v =>
          if (0 : ℚ) ≤ v then (acc.1 + v, acc.2.1 + v ^ 2, acc.2.2 + 1) else acc) acc
      = (acc.1 + (samples.filter (fun v => decide ((0 : ℚ) ≤ v))).sum,
         acc.2.1 + ((samples.filter (fun v => decide ((0 : ℚ) ≤ v))).map
            (fun v => v ^ 2)).sum,
         acc.2.2 + (samples.filter (fun v => decide ((0 : ℚ) ≤ v))).length) := by
  induction samples with
  | nil => intro acc; simp
  | cons v rest ih =>
    intro acc
    by_cases h : (0 : ℚ) ≤ v
    · simp only [List.foldl_cons, List.filter_cons, if_pos h, decide_eq_true h,
        if_pos rfl]
      rw [ih]
      simp [List.sum_cons, List.length_cons]
      constructor
      · ring
      · constructor
        · ring
        · omega
    · simp only [List.foldl_cons, List.filter_cons, if_neg h, decide_eq_false h]
      rw [ih]
      simp

/-- The accumulator triple of `z_score` equals (sum, sum of squares, count) over the
filtered valid samples. -/
theorem zScoreLoop_eq (samples : List ℚ) :
    zScoreLoop samples
      = ((samples.filter (fun v => decide ((0 : ℚ) ≤ v))).sum,
         ((samples.filter (fun v => decide ((0 : ℚ) ≤ v))).map (fun v => v ^ 2)).sum,
         (samples.filter (fun v => decide ((0 : ℚ) ≤ v))).length) := by
  have h := zScoreLoop_go samples (0, 0, 0)
  simpa [zScoreLoop] using h

/-- Z-score as the specification words it: over the valid (non-sentinel) samples,
population mean `μ` and second moment `E[X²]`, result
`(observed − μ) / sqrt(E[X²] − μ²)`; `none` models the NaN obtained when no valid
sample exists. -/
noncomputable def zScoreSpec (mcc : ℚ) (samples : List ℚ) : Option ℝ :=
  let valid := samples.filter (fun v => decide ((0 : ℚ) ≤ v))
  if valid.length = 0 then none
  else
    let mu : ℝ := ((valid.sum : ℚ) : ℝ) / (valid.length : ℝ)
    let m2 : ℝ := (((valid.map (fun v => v ^ 2)).sum : ℚ) : ℝ) / (valid.length : ℝ)
    some (((mcc : ℝ) - mu) / Real.sqrt (m2 - mu ^ 2))

/-- Claim C7: `z_score` computes its result over exactly the valid (non-sentinel)
sample entries — with `μ` the population mean and `E[X²]` the population second moment
of those entries it returns `(observed − μ) / sqrt(E[X²] − μ²)` — and with zero valid
samples the result is the NaN of `0/0` (modelled `none`), never a finite number. -/
theorem c7_z_score_valid_samples (mcc : ℚ) (samples : List ℚ) :
    z_score mcc samples = zScoreSpec mcc samples := by
  unfold z_score zScoreSpec
  rw [zScoreLoop_eq]

/-- Helper: with target count 0, one loop iteration either breaks out successfully
with a graph on the same number of nodes that contains zero motif instances, or
rejects the batch, leaving the graph untouched and recording a nonzero count. -/
theorem sampleStep_target_zero (oracle : Graph → Graph → List (List Int))
    (motif : Graph) (nodes : Nat) (rs : Nat → Nat) (st : SampleState) :
    (∃ g : Graph, sampleStep oracle motif 0 nodes rs st = Sum.inr (.success g)
        ∧ g.n = st.G.n ∧ motif_count oracle g motif = 0)
    ∨ (∃ st2 : SampleState, sampleStep oracle motif 0 nodes rs st = Sum.inl st2
        ∧ st2.G = st.G ∧ st2.curCount ≠ 0) := by
  by_cases h : motif_count oracle
      { st.G with edges := st.G.edges ++ newMotifEdges motif rs nodes st.ridx st.curAdd }
      motif = 0
  · left
    have hstep : sampleStep oracle motif 0 nodes rs st
        = Sum.inr (.success { st.G with
            edges := st.G.edges ++ newMotifEdges motif rs nodes st.ridx st.curAdd }) := by
      unfold sampleStep
      rw [if_neg (by simp), if_pos h]
    exact ⟨_, hstep, rfl, h⟩
  · right
    have hstep : sampleStep oracle motif 0 nodes rs st
        = Sum.inl ⟨st.G, st.oldCount,
            motif_count oracle { st.G with
              edges := st.G.edges ++ newMotifEdges motif rs nodes st.ridx st.curAdd }
              motif,
            (if st.curAdd / 3 ≤ 1 then (1, st.motifPlaceTrial + 1)
              else (st.curAdd / 3, st.motifPlaceTrial)).2,
            (if st.curAdd / 3 ≤ 1 then (1, st.motifPlaceTrial + 1)
              else (st.curAdd / 3, st.motifPlaceTrial)).1,
            st.ridx + st.curAdd * motif.n⟩ := by
      unfold sampleStep
      rw [if_neg (by simp), if_neg h]
    exact ⟨_, hstep, rfl, h⟩

/-- Helper: invariant of the `calc_sample` loop for target count 0 — any successful
return is a graph on `nodes` vertices with zero motif instances. -/
theorem calcSampleLoop_target_zero (oracle : Graph → Graph → List (List Int))
    (motif : Graph) (nodes maxTrials : Nat) (rs : Nat → Nat) :
    ∀ (fuel : Nat) (st : SampleState), st.G.n = nodes →
      (st.curCount = 0 → motif_count oracle st.G motif = 0) →
      ∀ g, calcSampleLoop oracle motif 0 nodes maxTrials rs fuel st = .success g →
        g.n = nodes ∧ motif_count oracle g motif = 0 := by
  intro fuel
  induction fuel with
  | zero =>
    intro st h1 h2 g hg
    rw [calcSampleLoop] at hg
    by_cases hguard : st.motifPlaceTrial < maxTrials
    · rw [if_pos hguard] at hg
      exact absurd hg (by simp)
    · rw [if_neg hguard] at hg
      unfold finishSample at hg
      by_cases hc : st.curCount > 0
      · rw [if_pos hc] at hg
        exact absurd hg (by simp)
      · rw [if_neg hc] at hg
        injection hg with hg
        subst hg
        exact ⟨h1, h2 (by omega)⟩
  | succ fuel ih =>
    intro st h1 h2 g hg
    rw [calcSampleLoop] at hg
    by_cases hguard : st.motifPlaceTrial < maxTrials
    · rw [if_pos hguard] at hg
      rcases sampleStep_target_zero oracle motif nodes rs st with
        ⟨g2, hstep, hn, hcount⟩ | ⟨st2, hstep, hG, hcc⟩
      · rw [hstep] at hg
        simp only at hg
        injection hg with hg
        subst hg
        exact ⟨h1 ▸ hn, hcount⟩
      · rw [hstep] at hg
        simp only at hg
        exact ih st2 (hG ▸ h1) (fun hz => absurd hz hcc) g hg
    · rw [if_neg hguard] at hg
      unfold finishSample at hg
      by_cases hc : st.curCount > 0
      · rw [if_pos hc] at hg
        exact absurd hg (by simp)
      · rw [if_neg hc] at hg
        injection hg with hg
        subst hg
        exact ⟨h1, h2 (by omega)⟩

/-- Claim C9 as amended: with `targetCount = 0`, `calc_sample` with `maxTrials = 0`
succeeds immediately and returns the empty graph on N nodes; with a positive trial
budget the loop does run (and may accept extra edges that create no instance — see
the counterexample), but every successful return is still a graph on N nodes with
zero motif instances.  The hypothesis is the oracle guarantee that the empty starting
graph hosts no motif instance. -/
theorem c9_target_zero (oracle : Graph → Graph → List (List Int)) (motif : Graph)
    (nodes maxTrials : Nat) (dir : Bool) (rs : Nat → Nat) (fuel : Nat)
    (h0 : motif_count oracle (⟨nodes, dir, []⟩ : Graph) motif = 0) :
    (maxTrials = 0 →
      calc_sample oracle motif 0 nodes maxTrials dir rs fuel
        = .success (⟨nodes, dir, []⟩ : Graph))
    ∧ ∀ g, calc_sample oracle motif 0 nodes maxTrials dir rs fuel = .success g →
        g.n = nodes ∧ motif_count oracle g motif = 0 := by
  constructor
  · intro hm
    subst hm
    simp only [calc_sample]
    rw [calcSampleLoop.eq_def]
    simp [finishSample]
  · intro g hg
    exact calcSampleLoop_target_zero oracle motif nodes maxTrials rs fuel _ rfl
      (fun _ => h0) g hg

/-- Witness for `c9_target_zero` at a concrete instantiation: target 0 on one node
with the chain motif, zero trial budget. -/
theorem c9_target_zero_witness :
    ((0 : Nat) = 0 →
      calc_sample subisoMaps chain3 0 1 0 true (fun _ => 0) 5
        = .success (⟨1, true, []⟩ : Graph))
    ∧ ∀ g, calc_sample subisoMaps chain3 0 1 0 true (fun _ => 0) 5 = .success g →
        g.n = 1 ∧ motif_count subisoMaps g chain3 = 0 :=
  c9_target_zero subisoMaps chain3 1 0 true (fun _ => 0) 5 (by decide)

/-- The (unordered) vertex set denoted by a raw mapping. -/
def mapVerts (m : List Int) : Finset Int := m.toFinset

/-- Spec-side contribution of one pair of vertex sets to the shared-vertex total:
the intersection size, counted only when strictly below the motif size. -/
def setPairContrib (sz : Nat) (S T : Finset Int) : Nat :=
  if (S ∩ T).card < sz then (S ∩ T).card else 0

/-- Spec-side sum of `setPairContrib` over all unordered pairs (`i < j`) of a list
of vertex sets. -/
def setPairFold (sz : Nat) : List (Finset Int) → Nat
  | [] => 0
  | S :: rest => (rest.map (setPairContrib sz S)).sum + setPairFold sz rest

/-- Code-side contribution of a mapping pair, as mcc.c accumulates it. -/
def mapPairContrib (sz : Nat) (x y : List Int) : Nat :=
  if foundCount x y < sz then foundCount x y else 0

/-- Code-side pair sum over a list of (already valid) mappings. -/
def mapPairFold (sz : Nat) : List (List Int) → Nat
  | [] => 0
  | x :: rest => (rest.map (mapPairContrib sz x)).sum + mapPairFold sz rest

/-- The `motif_clustering` computation as the specification words it (C3): over the
cleaned valid raw mappings, `totalShared` sums the vertex-set intersection sizes of
all unordered pairs whenever below the motif size, `actualShared = totalShared/rot²`,
`uniqueCount = validRaw/rot`, `possibleShared = (size−1)·uniqueCount·(uniqueCount−1)/2`,
and the coefficient is `actualShared / possibleShared` (undefined when the divisor
is zero). -/
def motifClusteringSpec (G M : Graph) (rotSym : Nat) (maps : List (List Int)) :
    Option ℚ :=
  let valid := (cleanupMcc G M maps).filter validMap
  let uniqueCount := valid.length / rotSym
  let actualShared := setPairFold M.n (valid.map mapVerts) / rotSym ^ 2
  let possibleShared := (M.n - 1) * uniqueCount * (uniqueCount - 1) / 2
  if possibleShared = 0 then none
  else some ((actualShared : ℚ) / (possibleShared : ℚ))

/-- Helper: the slot-scanning count of mcc.c equals the vertex-set intersection size
for a duplicate-free mapping. -/
theorem foundCount_eq_card (x y : List Int) (h : x.Nodup) :
    foundCount x y = (mapVerts x ∩ mapVerts y).card := by
  unfold foundCount mapVerts
  rw [List.countP_eq_length_filter]
  have hnd : (x.filter (fun a => decide (a ∈ y))).Nodup := h.filter _
  rw [← List.toFinset_card_of_nodup hnd, List.toFinset_filter]
  congr 1
  ext a
  simp [List.mem_toFinset]

/-- Helper: an accumulating fold of guarded additions is the starting value plus the
sum of the per-element contributions. -/
theorem foldl_contrib_eq (sz : Nat) (x : List Int) :
    ∀ (l : List (List Int)) (a : Nat),
      l.foldl (fun acc y => if foundCount x y < sz then acc + foundCount x y else acc) a
        = a + (l.map (mapPairContrib sz x)).sum := by
  intro l
  induction l with
  | nil => intro a; simp
  | cons y rest ih =>
    intro a
    simp only [List.foldl_cons, List.map_cons, List.sum_cons]
    by_cases h : foundCount x y < sz
    · rw [if_pos h, ih, mapPairContrib, if_pos h]
      omega
    · rw [if_neg h, ih, mapPairContrib, if_neg h]
      omega

/-- Helper: the sentinel-skipping double loop of mcc.c equals the pair fold over the
valid sublist. -/
theorem totSharedVerts_eq_filter (sz : Nat) :
    ∀ l : List (List Int), totSharedVerts sz l = mapPairFold sz (l.filter validMap) := by
  intro l
  induction l with
  | nil => rfl
  | cons x rest ih =>
    by_cases h : validMap x
    · simp only [totSharedVerts, if_pos h, List.filter_cons, h, if_pos rfl]
      rw [foldl_contrib_eq, ih]
      simp [mapPairFold]
    · simp only [totSharedVerts, if_neg h, List.filter_cons]
      rw [ih]
      simp only [Bool.not_eq_true] at h
      simp [h]

/-- Helper: on duplicate-free mappings the code-side pair fold agrees with the
spec-side pair fold over vertex sets. -/
theorem mapPairFold_eq_setPairFold (sz : Nat) :
    ∀ l : List (List Int), (∀ m ∈ l, m.Nodup) →
      mapPairFold sz l = setPairFold sz (l.map mapVerts) := by
  intro l
  induction l with
  | nil => intro _; rfl
  | cons x rest ih =>
    intro h
    simp only [mapPairFold, List.map_cons, setPairFold]
    have hx : x.Nodup := h x (by simp)
    congr 1
    · rw [List.map_map]
      congr 1
      apply List.map_congr_left
      intro y _
      simp only [Function.comp_apply, mapPairContrib, setPairContrib,
        foundCount_eq_card x y hx]
    · exact ih (fun m hm => h m (by simp [hm]))

/-- Helper: sums of Nat-valued maps over `List.range` agree with `Finset.range`. -/
theorem list_range_map_sum (f : Nat → Nat) :
    ∀ n, ((List.range n).map f).sum = ∑ i in Finset.range n, f i := by
  intro n
  induction n with
  | zero => simp
  | succ n ih =>
    rw [List.range_succ]
    simp [ih, Finset.sum_range_succ]

/-- Helper: a fold of plain additions is the start plus the mapped sum. -/
theorem foldl_add_eq_sum {α : Type} (f : α → Nat) :
    ∀ (l : List α) (a : Nat),
      l.foldl (fun acc i => acc + f i) a = a + (l.map f).sum := by
  intro l
  induction l with
  | nil => intro a; simp
  | cons i rest ih =>
    intro a
    simp only [List.foldl_cons, List.map_cons, List.sum_cons]
    rw [ih]
    omega

/-- Helper: the `posSharedVerts` loop computes `(size−1) · C(u,2)` exactly. -/
theorem posSharedVerts_closed (sz u : Nat) :
    posSharedVerts sz u = (sz - 1) * (u * (u - 1) / 2) := by
  unfold posSharedVerts
  rw [foldl_add_eq_sum]
  rw [list_range_map_sum, Nat.zero_add]
  have h1 : ∀ i, (sz - 1) * (u - i - 1) = (sz - 1) * (u - 1 - i) := by
    intro i; congr 1; omega
  calc (∑ i in Finset.range u, (sz - 1) * (u - i - 1))
      = ∑ i in Finset.range u, (sz - 1) * (u - 1 - i) := by
        exact Finset.sum_congr rfl (fun i _ => h1 i)
    _ = (sz - 1) * ∑ i in Finset.range u, (u - 1 - i) := by rw [Finset.mul_sum]
    _ = (sz - 1) * ∑ i in Finset.range u, i := by
        congr 1
        have h3 := Finset.sum_range_reflect (fun j => j) u
        simpa using h3
    _ = (sz - 1) * (u * (u - 1) / 2) := by
        congr 1
        have h2 := Finset.sum_range_id_mul_two u
        omega

/-- Helper: `u · (u − 1)` is always even. -/
theorem two_dvd_mul_pred (u : Nat) : 2 ∣ u * (u - 1) := by
  rcases u with _ | v
  · simp
  · simpa [Nat.add_sub_cancel, Nat.mul_comm] using (Nat.even_mul_succ_self v).two_dvd

/-- Helper: invalidating a nonempty mapping makes its slot 0 the sentinel. -/
theorem validMap_invalidate (m : List Int) (h : m ≠ []) :
    validMap (invalidate m) = false := by
  cases m with
  | nil => exact absurd rfl h
  | cons a t => simp [invalidate, validMap]

/-- Helper: the valid survivors of mcc.c's cleanup are exactly the original mappings
passing the edge-count test (directed case) or all mappings (undirected case). -/
theorem cleanupMcc_filter_valid (G M : Graph) (maps : List (List Int))
    (hpos : ∀ m ∈ maps, m.headD 0 ≠ -1) (hne : ∀ m ∈ maps, m ≠ []) :
    (cleanupMcc G M maps).filter validMap
      = if G.directed then
          maps.filter (fun m => inducedEdgeCount G m == M.edges.length)
        else maps := by
  unfold cleanupMcc
  by_cases hd : G.directed
  · rw [if_pos hd, if_pos hd, List.filter_map]
    have h1 : maps.filter
        (validMap ∘ fun m =>
          if inducedEdgeCount G m ≠ M.edges.length then invalidate m else m)
        = maps.filter (fun m => inducedEdgeCount G m == M.edges.length) := by
      apply List.filter_congr
      intro m hm
      simp only [Function.comp_apply]
      by_cases ht : inducedEdgeCount G m = M.edges.length
      · rw [if_neg (by omega)]
        have : validMap m = true := by
          simpa [validMap] using hpos m hm
        simp [this, ht]
      · rw [if_pos ht, validMap_invalidate m (hne m hm)]
        simp [Nat.beq_eq]
        omega
    rw [h1]
    have h2 : ∀ m ∈ maps.filter (fun m => inducedEdgeCount G m == M.edges.length),
        (if inducedEdgeCount G m ≠ M.edges.length then invalidate m else m) = m := by
      intro m hm
      have := (List.mem_filter.mp hm).2
      rw [if_neg (by simpa [Nat.beq_eq] using this)]
    calc (maps.filter (fun m => inducedEdgeCount G m == M.edges.length)).map
          (fun m => if inducedEdgeCount G m ≠ M.edges.length then invalidate m else m)
        = (maps.filter (fun m => inducedEdgeCount G m == M.edges.length)).map id := by
          exact List.map_congr_left h2
      _ = maps.filter (fun m => inducedEdgeCount G m == M.edges.length) := by
          rw [List.map_id]
  · rw [if_neg hd, if_neg hd]
    apply List.filter_eq_self.mpr
    intro m hm
    simpa [validMap] using hpos m hm

/-- Helper: the surviving count mcc.c accumulates during cleanup equals the length of
the valid sublist of the cleaned list. -/
theorem actMapsCount_eq_valid (G M : Graph) (maps : List (List Int))
    (hpos : ∀ m ∈ maps, m.headD 0 ≠ -1) (hne : ∀ m ∈ maps, m ≠ []) :
    actMapsCount G M maps = ((cleanupMcc G M maps).filter validMap).length := by
  rw [cleanupMcc_filter_valid G M maps hpos hne]
  unfold actMapsCount
  by_cases hd : G.directed
  · rw [if_pos hd, if_pos hd]
  · rw [if_neg hd, if_neg hd]

/-- Claim C3: `motif_clustering` returns `actualShared / possibleShared` with
`totalShared` the guarded pairwise vertex-set intersection total over the cleaned
valid raw mappings, `actualShared = totalShared / rot²`,
`uniqueCount = validRaw / rot`, and
`possibleShared = (size − 1) · uniqueCount · (uniqueCount − 1) / 2`.  The hypotheses
are the guarantees of the external VF2 oracle: every raw mapping is injective
(duplicate-free), nonempty, and carries no sentinel. -/
theorem c3_clustering_formula (G M : Graph) (rotSym : Nat) (maps : List (List Int))
    (hnd : ∀ m ∈ maps, m.Nodup) (hpos : ∀ m ∈ maps, m.headD 0 ≠ -1)
    (hne : ∀ m ∈ maps, m ≠ []) :
    motifClusteringFrom G M rotSym maps = motifClusteringSpec G M rotSym maps := by
  have hvalid_nd : ∀ m ∈ (cleanupMcc G M maps).filter validMap, m.Nodup := by
    intro m hm
    rw [cleanupMcc_filter_valid G M maps hpos hne] at hm
    by_cases hd : G.directed
    · rw [if_pos hd] at hm
      exact hnd m (List.mem_of_mem_filter hm)
    · rw [if_neg hd] at hm
      exact hnd m hm
  simp only [motifClusteringFrom, motifClusteringSpec]
  rw [actMapsCount_eq_valid G M maps hpos hne,
    totSharedVerts_eq_filter, mapPairFold_eq_setPairFold M.n _ hvalid_nd,
    posSharedVerts_closed]
  set u := ((cleanupMcc G M maps).filter validMap).length / rotSym with hu
  have hrw : (M.n - 1) * u * (u - 1) / 2 = (M.n - 1) * (u * (u - 1) / 2) := by
    rw [mul_assoc, Nat.mul_div_assoc (M.n - 1) (two_dvd_mul_pred u)]
  rw [hrw]
  have hpow : rotSym ^ 2 = rotSym * rotSym := by ring
  rw [hpow]

/-- Witness for `c3_clustering_formula` on the concrete triangle host with the P3
motif, the reference oracle's raw mappings and its symmetry count 2. -/
theorem c3_clustering_formula_witness :
    motifClusteringFrom triangle3 p3u 2 (subisoMaps triangle3 p3u)
      = motifClusteringSpec triangle3 p3u 2 (subisoMaps triangle3 p3u) :=
  c3_clustering_formula triangle3 p3u 2 (subisoMaps triangle3 p3u)
    (by decide) (by decide) (by decide)

/-- Helper: the pair contribution is symmetric in its two vertex sets. -/
theorem setPairContrib_comm (sz : Nat) (S T : Finset Int) :
    setPairContrib sz S T = setPairContrib sz T S := by
  unfold setPairContrib
  rw [Finset.inter_comm]

/-- Helper: a set of full motif size contributes nothing against itself. -/
theorem setPairContrib_self (sz : Nat) (S : Finset Int) (h : S.card = sz) :
    setPairContrib sz S S = 0 := by
  unfold setPairContrib
  rw [Finset.inter_self, h, if_neg (by omega)]

/-- Helper: the pair contribution never exceeds `size − 1`. -/
theorem setPairContrib_le (sz : Nat) (S T : Finset Int) :
    setPairContrib sz S T ≤ sz - 1 := by
  unfold setPairContrib
  split
  · omega
  · omega

/-- Helper: the pair sum is invariant under permutations of the vertex-set list. -/
theorem setPairFold_perm (sz : Nat) :
    ∀ {l1 l2 : List (Finset Int)}, l1.Perm l2 →
      setPairFold sz l1 = setPairFold sz l2 := by
  intro l1 l2 h
  induction h with
  | nil => rfl
  | cons x h ih =>
    simp only [setPairFold, ih]
    congr 1
    exact (h.map (setPairContrib sz x)).sum_eq
  | swap x y l =>
    simp only [setPairFold, List.map_cons, List.sum_cons]
    rw [setPairContrib_comm sz y x]
    omega
  | trans h1 h2 ih1 ih2 => omega

/-- Helper: pair sum of a concatenation splits into within- and cross-parts. -/
theorem setPairFold_append (sz : Nat) (ys : List (Finset Int)) :
    ∀ xs, setPairFold sz (xs ++ ys)
      = setPairFold sz xs
        + (xs.map (fun S => (ys.map (setPairContrib sz S)).sum)).sum
        + setPairFold sz ys := by
  intro xs
  induction xs with
  | nil => simp [setPairFold]
  | cons S rest ih =>
    simp only [List.cons_append, setPairFold, List.append_eq, List.map_append,
      List.sum_append, List.map_cons, List.sum_cons]
    rw [ih]
    omega

/-- Helper: a block of copies of one full-size vertex set has zero pair sum. -/
theorem setPairFold_replicate (sz : Nat) (S : Finset Int)
    (h : setPairContrib sz S S = 0) :
    ∀ n, setPairFold sz (List.replicate n S) = 0 := by
  intro n
  induction n with
  | zero => rfl
  | succ n ih =>
    rw [List.replicate_succ]
    simp [setPairFold, List.map_replicate, h, List.sum_replicate, ih]

/-- Helper: a bounded-valued map sums to at most `length · bound`. -/
theorem sum_map_le_length_mul {α : Type} (f : α → Nat) (c : Nat) :
    ∀ l : List α, (∀ a ∈ l, f a ≤ c) → (l.map f).sum ≤ l.length * c := by
  intro l
  induction l with
  | nil => simp
  | cons a rest ih =>
    intro h
    simp only [List.map_cons, List.sum_cons, List.length_cons]
    have h1 := h a (by simp)
    have h2 := ih (fun b hb => h b (by simp [hb]))
    calc f a + (rest.map f).sum ≤ c + rest.length * c := Nat.add_le_add h1 h2
      _ = (rest.length + 1) * c := by ring

/-- Helper: length of a uniform block expansion. -/
theorem flatMap_replicate_length {α : Type} (rot : Nat) :
    ∀ sets : List α,
      (sets.flatMap (fun S => List.replicate rot S)).length = sets.length * rot := by
  intro sets
  induction sets with
  | nil => simp
  | cons S rest ih =>
    rw [List.flatMap_cons, List.length_append, List.length_replicate, ih,
      List.length_cons]
    ring

/-- Helper: length of a weighted block expansion. -/
theorem flatMap_replicate_mul_length (rot : Nat) :
    ∀ blocks : List (Finset Int × Nat),
      (blocks.flatMap (fun b => List.replicate (b.2 * rot) b.1)).length
        = (blocks.map Prod.snd).sum * rot := by
  intro blocks
  induction blocks with
  | nil => simp
  | cons b rest ih =>
    rw [List.flatMap_cons, List.length_append, List.length_replicate, ih,
      List.map_cons, List.sum_cons]
    ring

/-- Helper: `T·T − T = T·(T−1)` over the naturals. -/
theorem mul_self_sub_self (T : Nat) : T * T - T = T * (T - 1) := by
  cases T with
  | zero => simp
  | succ t =>
    have h : (t + 1) * (t + 1) = (t + 1) * t + (t + 1) := by ring
    have h2 : (t + 1) * ((t + 1) - 1) = (t + 1) * t := by simp
    omega

/-- Helper: `T·(T−1) + T = T·T` over the naturals. -/
theorem mul_pred_add_self (T : Nat) : T * (T - 1) + T = T * T := by
  cases T with
  | zero => simp
  | succ t =>
    simp only [Nat.add_sub_cancel]
    ring

/-- Helper: with every multiplier positive, the sum of multipliers is at most the sum
of their squares. -/
theorem sum_mult_le_sum_sq :
    ∀ blocks : List (Finset Int × Nat), (∀ b ∈ blocks, 1 ≤ b.2) →
      (blocks.map Prod.snd).sum ≤ (blocks.map (fun b => b.2 * b.2)).sum := by
  intro blocks
  induction blocks with
  | nil => intro _; simp
  | cons b rest ih =>
    intro h
    simp only [List.map_cons, List.sum_cons]
    have h1 : b.2 ≤ b.2 * b.2 := Nat.le_mul_of_pos_left _ (h b (by simp))
    have h2 := ih (fun x hx => h x (by simp [hx]))
    omega

/-- Helper: the pair sum over automorphism orbits of sizes `mᵢ·rot`, each orbit on a
single full-size vertex set, satisfies
`2·fold + (size−1)·rot²·Σmᵢ² ≤ (size−1)·rot²·(Σmᵢ)²` — within-orbit pairs contribute
nothing (the guard excludes full-size intersections) and each cross pair contributes
at most `size−1`.  Stated with additions only, to stay clear of truncated
subtraction. -/
theorem setPairFold_weighted_blocks (sz rot : Nat) :
    ∀ blocks : List (Finset Int × Nat),
      (∀ b ∈ blocks, b.1.card = sz) →
      2 * setPairFold sz (blocks.flatMap (fun b => List.replicate (b.2 * rot) b.1))
          + (sz - 1) * (rot * rot) * (blocks.map (fun b => b.2 * b.2)).sum
        ≤ (sz - 1) * (rot * rot)
            * ((blocks.map Prod.snd).sum * (blocks.map Prod.snd).sum) := by
  intro blocks
  induction blocks with
  | nil => simp [setPairFold]
  | cons b rest ih =>
    intro hcard
    rw [List.flatMap_cons, setPairFold_append]
    have hself : setPairFold sz (List.replicate (b.2 * rot) b.1) = 0 :=
      setPairFold_replicate sz b.1 (setPairContrib_self sz b.1 (hcard b (by simp))) _
    have hinner : ((rest.flatMap (fun c => List.replicate (c.2 * rot) c.1)).map
        (setPairContrib sz b.1)).sum ≤ (rest.map Prod.snd).sum * rot * (sz - 1) := by
      have h := sum_map_le_length_mul (setPairContrib sz b.1) (sz - 1)
        (rest.flatMap (fun c => List.replicate (c.2 * rot) c.1))
        (fun T _ => setPairContrib_le sz b.1 T)
      rwa [flatMap_replicate_mul_length] at h
    have hcross : ((List.replicate (b.2 * rot) b.1).map
        (fun X => ((rest.flatMap (fun c => List.replicate (c.2 * rot) c.1)).map
          (setPairContrib sz X)).sum)).sum
        ≤ (b.2 * rot) * ((rest.map Prod.snd).sum * rot * (sz - 1)) := by
      rw [List.map_replicate, List.sum_replicate, smul_eq_mul]
      exact Nat.mul_le_mul_left _ hinner
    have hrec := ih (fun c hc => hcard c (by simp [hc]))
    rw [hself]
    simp only [List.map_cons, List.sum_cons]
    set m := b.2 with hm
    set Mr := (rest.map Prod.snd).sum with hMr
    set s1 := sz - 1 with hs1
    set Q := (rest.map (fun b => b.2 * b.2)).sum with hQ
    set C := ((List.replicate (m * rot) b.1).map
        (fun X => ((rest.flatMap (fun c => List.replicate (c.2 * rot) c.1)).map
          (setPairContrib sz X)).sum)).sum with hC
    set R := setPairFold sz (rest.flatMap (fun c => List.replicate (c.2 * rot) c.1))
      with hR
    calc 2 * (0 + C + R) + s1 * (rot * rot) * (m * m + Q)
        = 2 * C + (2 * R + s1 * (rot * rot) * Q) + s1 * (rot * rot) * (m * m) := by
          ring
      _ ≤ 2 * ((m * rot) * (Mr * rot * s1)) + s1 * (rot * rot) * (Mr * Mr)
            + s1 * (rot * rot) * (m * m) :=
          Nat.add_le_add (Nat.add_le_add (Nat.mul_le_mul_left 2 hcross) hrec) le_rfl
      _ = s1 * (rot * rot) * ((m + Mr) * (m + Mr)) := by ring

/-- Claim C4: for every host graph and pattern, the coefficient computed by
`motif_clustering` lies in `[0, 1]` whenever the number of unique instances (the
quantity the program computes, `actMaps / rotSym`) is at least 2, and is undefined
(`none`, the non-finite `x/0` of the C code) whenever it is below 2.  The hypotheses
are the guarantees every VF2-oracle output satisfies: raw mappings are injective,
nonempty and sentinel-free, and the mappings sharing one instance vertex set number a
positive multiple `mᵢ·rotSym` of the motif symmetry count — precomposition with the
motif's `rotSym` self-subisomorphisms acts freely on the mappings onto a fixed vertex
set, and the cleanup keeps or invalidates whole vertex-set classes, so the property
survives cleanup.  Orbit sizes need not be uniform and the vertex sets need not be
distinct; `T = Σmᵢ` is exactly the program's `uniqueMotifs`. -/
theorem c4_coefficient_bounds (G M : Graph) (rotSym : Nat) (maps : List (List Int))
    (blocks : List (Finset Int × Nat)) (hrot : 0 < rotSym) (hsz : 2 ≤ M.n)
    (hcard : ∀ b ∈ blocks, b.1.card = M.n) (hmult : ∀ b ∈ blocks, 1 ≤ b.2)
    (hnd : ∀ m ∈ maps, m.Nodup) (hpos : ∀ m ∈ maps, m.headD 0 ≠ -1)
    (hne : ∀ m ∈ maps, m ≠ [])
    (hperm : (((cleanupMcc G M maps).filter validMap).map mapVerts).Perm
        (blocks.flatMap (fun b => List.replicate (b.2 * rotSym) b.1))) :
    (2 ≤ (blocks.map Prod.snd).sum →
      ∃ q, motifClusteringFrom G M rotSym maps = some q ∧ 0 ≤ q ∧ q ≤ 1)
    ∧ ((blocks.map Prod.snd).sum < 2 → motifClusteringFrom G M rotSym maps = none) := by
  have hvalid_nd : ∀ m ∈ (cleanupMcc G M maps).filter validMap, m.Nodup := by
    intro m hm
    rw [cleanupMcc_filter_valid G M maps hpos hne] at hm
    by_cases hd : G.directed
    · rw [if_pos hd] at hm
      exact hnd m (List.mem_of_mem_filter hm)
    · rw [if_neg hd] at hm
      exact hnd m hm
  set T := (blocks.map Prod.snd).sum with hT
  have hlen : ((cleanupMcc G M maps).filter validMap).length = T * rotSym := by
    have h1 := hperm.length_eq
    rw [List.length_map] at h1
    rw [h1, flatMap_replicate_mul_length]
  have huniq : actMapsCount G M maps / rotSym = T := by
    rw [actMapsCount_eq_valid G M maps hpos hne, hlen, Nat.mul_div_cancel _ hrot]
  have htot : totSharedVerts M.n (cleanupMcc G M maps)
      = setPairFold M.n (blocks.flatMap (fun b => List.replicate (b.2 * rotSym) b.1)) := by
    rw [totSharedVerts_eq_filter, mapPairFold_eq_setPairFold M.n _ hvalid_nd]
    exact setPairFold_perm M.n hperm
  have hposval : posSharedVerts M.n (actMapsCount G M maps / rotSym)
      = (M.n - 1) * (T * (T - 1) / 2) := by
    rw [huniq, posSharedVerts_closed]
  have hmc : motifClusteringFrom G M rotSym maps
      = if (M.n - 1) * (T * (T - 1) / 2) = 0 then none
        else some
          (((totSharedVerts M.n (cleanupMcc G M maps) / (rotSym * rotSym) : Nat) : ℚ)
            / (((M.n - 1) * (T * (T - 1) / 2) : Nat) : ℚ)) := by
    simp only [motifClusteringFrom]
    rw [hposval]
  have hbound : 2 * setPairFold M.n
        (blocks.flatMap (fun b => List.replicate (b.2 * rotSym) b.1))
      ≤ (M.n - 1) * (rotSym * rotSym) * (T * (T - 1)) := by
    have h1 := setPairFold_weighted_blocks M.n rotSym blocks hcard
    rw [← hT] at h1
    have h2 : (M.n - 1) * (rotSym * rotSym) * T
        ≤ (M.n - 1) * (rotSym * rotSym) * (blocks.map (fun b => b.2 * b.2)).sum :=
      Nat.mul_le_mul_left _ (sum_mult_le_sum_sq blocks hmult)
    have h3 : (M.n - 1) * (rotSym * rotSym) * (T * (T - 1))
          + (M.n - 1) * (rotSym * rotSym) * T
        = (M.n - 1) * (rotSym * rotSym) * (T * T) := by
      calc (M.n - 1) * (rotSym * rotSym) * (T * (T - 1))
            + (M.n - 1) * (rotSym * rotSym) * T
          = (M.n - 1) * (rotSym * rotSym) * (T * (T - 1) + T) := by ring
        _ = (M.n - 1) * (rotSym * rotSym) * (T * T) := by rw [mul_pred_add_self]
    omega
  constructor
  · intro hu2
    have hn1 : 1 ≤ M.n - 1 := by omega
    have h2u : 2 ≤ T * (T - 1) := by
      have h := Nat.mul_le_mul (show 2 ≤ T from hu2) (show 1 ≤ T - 1 by omega)
      omega
    have hpos0 : 0 < (M.n - 1) * (T * (T - 1) / 2) := by
      have h3 : 1 ≤ T * (T - 1) / 2 := by omega
      calc 0 < 1 * 1 := by omega
        _ ≤ (M.n - 1) * (T * (T - 1) / 2) := Nat.mul_le_mul hn1 h3
    have hact_le : totSharedVerts M.n (cleanupMcc G M maps) / (rotSym * rotSym)
        ≤ (M.n - 1) * (T * (T - 1) / 2) := by
      rw [htot]
      obtain ⟨w, hw⟩ := two_dvd_mul_pred T
      have hP : (M.n - 1) * (rotSym * rotSym) * (T * (T - 1))
          = 2 * ((rotSym * rotSym) * ((M.n - 1) * (T * (T - 1) / 2))) := by
        rw [hw, Nat.mul_div_cancel_left w (by omega)]
        ring
      have hfold : setPairFold M.n
            (blocks.flatMap (fun b => List.replicate (b.2 * rotSym) b.1))
          ≤ (rotSym * rotSym) * ((M.n - 1) * (T * (T - 1) / 2)) := by
        omega
      calc setPairFold M.n (blocks.flatMap (fun b => List.replicate (b.2 * rotSym) b.1))
            / (rotSym * rotSym)
          ≤ (rotSym * rotSym) * ((M.n - 1) * (T * (T - 1) / 2)) / (rotSym * rotSym) :=
            Nat.div_le_div_right hfold
        _ = (M.n - 1) * (T * (T - 1) / 2) :=
            Nat.mul_div_cancel_left _ (Nat.mul_pos hrot hrot)
    rw [hmc, if_neg (by omega)]
    refine ⟨_, rfl, ?_, ?_⟩
    · positivity
    · rw [div_le_one (by exact_mod_cast hpos0)]
      exact_mod_cast hact_le
  · intro hu2
    have hzero : T * (T - 1) = 0 := by
      have h : T = 0 ∨ T = 1 := by omega
      rcases h with h | h <;> simp [h]
    rw [hmc, if_pos (by rw [hzero]; simp)]

/-- Witness for `c4_coefficient_bounds` on a non-uniform orbit: the undirected
triangle host with the P3 motif, whose single instance `{0,1,2}` carries all six raw
mappings — orbit size `6 = 3 · rotSym` with `rotSym = 2` — so the program's unique
count is `T = 3 ≥ 2` and the coefficient is a finite value in `[0, 1]`. -/
theorem c4_coefficient_bounds_witness :
    (2 ≤ (([(({0, 1, 2} : Finset Int), 3)]).map Prod.snd).sum →
      ∃ q, motifClusteringFrom triangle3 p3u 2 (subisoMaps triangle3 p3u)
        = some q ∧ 0 ≤ q ∧ q ≤ 1)
    ∧ ((([(({0, 1, 2} : Finset Int), 3)]).map Prod.snd).sum < 2 →
      motifClusteringFrom triangle3 p3u 2 (subisoMaps triangle3 p3u) = none) :=
  c4_coefficient_bounds triangle3 p3u 2 (subisoMaps triangle3 p3u)
    [(({0, 1, 2} : Finset Int), 3)] (by decide) (by decide) (by decide) (by decide)
    (by decide) (by decide) (by decide) (by decide)

/-- Helper: on duplicate-free full-size mappings, the slot-count sameness test of the
dedup loops decides exactly vertex-set equality. -/
theorem sameVertexSet_iff (sz : Nat) (cur prev : List Int)
    (h1 : cur.Nodup) (h2 : cur.length = sz) (h3 : prev.Nodup) (h4 : prev.length = sz) :
    sameVertexSet sz cur prev = true ↔ mapVerts cur = mapVerts prev := by
  unfold sameVertexSet
  have hf : (cur.countP fun a => decide (a ∈ prev))
      = (mapVerts cur ∩ mapVerts prev).card := foundCount_eq_card cur prev h1
  rw [hf, beq_iff_eq]
  have hccur : (mapVerts cur).card = sz := by
    rw [mapVerts, List.toFinset_card_of_nodup h1, h2]
  have hcprev : (mapVerts prev).card = sz := by
    rw [mapVerts, List.toFinset_card_of_nodup h3, h4]
  constructor
  · intro h
    have hsub1 : mapVerts cur ∩ mapVerts prev ⊆ mapVerts cur := Finset.inter_subset_left
    have heq : mapVerts cur ∩ mapVerts prev = mapVerts cur :=
      Finset.eq_of_subset_of_card_le hsub1 (by omega)
    have hsub : mapVerts cur ⊆ mapVerts prev := by
      rw [← heq]
      exact Finset.inter_subset_right
    exact Finset.eq_of_subset_of_card_le hsub (by omega)
  · intro h
    rw [h, Finset.inter_self, hcprev]

/-- Helper: the `any` scan of the dedup loop decides membership of the candidate's
vertex set among the accepted vertex sets. -/
theorem dedup_any_iff (sz : Nat) (cur : List Int) (acc : List (List Int))
    (hc1 : cur.Nodup) (hc2 : cur.length = sz)
    (hacc : ∀ m ∈ acc, m.Nodup ∧ m.length = sz) :
    acc.any (fun prev => sameVertexSet sz cur prev) = true
      ↔ mapVerts cur ∈ acc.map mapVerts := by
  rw [List.any_eq_true]
  constructor
  · rintro ⟨prev, hp, hs⟩
    have h := (sameVertexSet_iff sz cur prev hc1 hc2
      (hacc prev hp).1 (hacc prev hp).2).mp hs
    exact h ▸ List.mem_map_of_mem mapVerts hp
  · intro h
    rcases List.mem_map.mp h with ⟨prev, hp, he⟩
    exact ⟨prev, hp, (sameVertexSet_iff sz cur prev hc1 hc2
      (hacc prev hp).1 (hacc prev hp).2).mpr he.symm⟩

/-- Helper: the dedup loop accepts exactly one representative per distinct vertex
set — its output, projected to vertex sets, is duplicate-free and covers precisely
the accumulator's sets plus the valid inputs' sets. -/
theorem dedupMapsAux_spec (sz : Nat) :
    ∀ (L acc : List (List Int)),
      (∀ m ∈ L, validMap m = true → (m.Nodup ∧ m.length = sz)) →
      (∀ m ∈ acc, m.Nodup ∧ m.length = sz) →
      ((acc.map mapVerts).Nodup) →
      ((dedupMapsAux sz L acc).map mapVerts).Nodup
      ∧ ((dedupMapsAux sz L acc).map mapVerts).toFinset
          = (acc.map mapVerts).toFinset ∪ ((L.filter validMap).map mapVerts).toFinset := by
  intro L
  induction L with
  | nil =>
    intro acc hL hacc haccnd
    refine ⟨haccnd, ?_⟩
    simp [dedupMapsAux]
  | cons cur rest ih =>
    intro acc hL hacc haccnd
    have hLrest : ∀ m ∈ rest, validMap m = true → (m.Nodup ∧ m.length = sz) :=
      fun m hm => hL m (by simp [hm])
    by_cases hv : validMap cur = true
    · have hcur := hL cur (by simp) hv
      have hfil : (cur :: rest).filter validMap = cur :: rest.filter validMap := by
        rw [List.filter_cons, if_pos hv]
      by_cases hmem : acc.any (fun prev => sameVertexSet sz cur prev) = true
      · have hred : dedupMapsAux sz (cur :: rest) acc = dedupMapsAux sz rest acc := by
          simp [dedupMapsAux, hv, hmem]
        have hin : mapVerts cur ∈ acc.map mapVerts :=
          (dedup_any_iff sz cur acc hcur.1 hcur.2 hacc).mp hmem
        obtain ⟨hnd2, hset⟩ := ih acc hLrest hacc haccnd
        refine ⟨hred ▸ hnd2, ?_⟩
        rw [hred, hset, hfil, List.map_cons, List.toFinset_cons]
        ext a
        simp only [Finset.mem_union, Finset.mem_insert]
        constructor
        · rintro (h | h)
          · exact Or.inl h
          · exact Or.inr (Or.inr h)
        · rintro (h | h | h)
          · exact Or.inl h
          · exact Or.inl (by rw [h]; exact List.mem_toFinset.mpr hin)
          · exact Or.inr h
      · have hred : dedupMapsAux sz (cur :: rest) acc
            = dedupMapsAux sz rest (acc ++ [cur]) := by
          simp [dedupMapsAux, hv, hmem]
        have hnotin : mapVerts cur ∉ acc.map mapVerts := by
          intro hc
          exact hmem ((dedup_any_iff sz cur acc hcur.1 hcur.2 hacc).mpr hc)
        have hacc2 : ∀ m ∈ acc ++ [cur], m.Nodup ∧ m.length = sz := by
          intro m hm
          rcases List.mem_append.mp hm with h | h
          · exact hacc m h
          · simp at h
            exact h ▸ hcur
        have haccnd2 : ((acc ++ [cur]).map mapVerts).Nodup := by
          rw [List.map_append, List.nodup_append]
          refine ⟨haccnd, by simp, ?_⟩
          intro a ha hb
          simp at hb
          exact hnotin (hb ▸ ha)
        obtain ⟨hnd2, hset⟩ := ih (acc ++ [cur]) hLrest hacc2 haccnd2
        refine ⟨hred ▸ hnd2, ?_⟩
        rw [hred, hset, hfil, List.map_append, List.toFinset_append, List.map_cons,
          List.map_nil, List.toFinset_cons, List.toFinset_nil, List.map_cons,
          List.toFinset_cons]
        ext a
        simp only [Finset.mem_union, Finset.mem_insert, Finset.not_mem_empty, or_false]
        constructor
        · rintro ((h | h) | h)
          · exact Or.inl h
          · exact Or.inr (Or.inl h)
          · exact Or.inr (Or.inr h)
        · rintro (h | h | h)
          · exact Or.inl (Or.inl h)
          · exact Or.inl (Or.inr h)
          · exact Or.inr h
    · have hred : dedupMapsAux sz (cur :: rest) acc = dedupMapsAux sz rest acc := by
        simp [dedupMapsAux, hv]
      have hfil : (cur :: rest).filter validMap = rest.filter validMap := by
        rw [List.filter_cons, if_neg (by simpa using hv)]
      obtain ⟨hnd2, hset⟩ := ih acc hLrest hacc haccnd
      exact ⟨hred ▸ hnd2, by rw [hred, hset, hfil]⟩

/-- Helper: the dedup list's length is the number of distinct vertex sets among the
valid mappings. -/
theorem dedupMaps_length (sz : Nat) (L : List (List Int))
    (hL : ∀ m ∈ L, validMap m = true → (m.Nodup ∧ m.length = sz)) :
    (dedupMaps sz L).length = ((L.filter validMap).map mapVerts).toFinset.card := by
  obtain ⟨hnd, hset⟩ := dedupMapsAux_spec sz L [] hL (by simp) (by simp)
  unfold dedupMaps
  rw [← List.length_map (dedupMapsAux sz L []) mapVerts,
    ← List.toFinset_card_of_nodup hnd, hset]
  simp

/-- Helper: expanding each set into a nonempty block leaves the set of values. -/
theorem flatMap_replicate_toFinset (rot : Nat) (hrot : 0 < rot) :
    ∀ sets : List (Finset Int),
      (sets.flatMap (fun S => List.replicate rot S)).toFinset = sets.toFinset := by
  intro sets
  induction sets with
  | nil => simp
  | cons S rest ih =>
    rw [List.flatMap_cons, List.toFinset_append, ih, List.toFinset_cons]
    rcases rot with _ | r
    · omega
    · rw [List.toFinset_replicate_of_ne_zero (by omega)]
      exact (Finset.insert_eq S rest.toFinset).symm

/-- Claim C5 as amended: on a shared cleaned raw-mapping list whose valid mappings
are injective, of motif size, and form uniform automorphism orbits — each distinct
instance vertex set appearing exactly `rotSym` times — the unique-instance count
obtained by integer division (`actMaps / rotSym`, mcc.c `motif_count`) equals the
length of the deduplicated unique-instance list built by pairwise vertex-set
comparison (the `actMaps` list of mcstats.c/mcextract.c). -/
theorem c5_division_eq_dedup (sz rotSym : Nat) (L : List (List Int))
    (sets : List (Finset Int)) (hrot : 0 < rotSym) (hset_nd : sets.Nodup)
    (hL : ∀ m ∈ L, validMap m = true → (m.Nodup ∧ m.length = sz))
    (hperm : ((L.filter validMap).map mapVerts).Perm
        (sets.flatMap (fun S => List.replicate rotSym S))) :
    (L.filter validMap).length / rotSym = (dedupMaps sz L).length := by
  have hlen : (L.filter validMap).length = sets.length * rotSym := by
    have h1 := hperm.length_eq
    rw [List.length_map] at h1
    rw [h1, flatMap_replicate_length]
  rw [hlen, Nat.mul_div_cancel _ hrot, dedupMaps_length sz L hL,
    List.toFinset_eq_of_perm _ _ hperm, flatMap_replicate_toFinset rotSym hrot sets,
    List.toFinset_card_of_nodup hset_nd]

/-- Witness for `c5_division_eq_dedup`: four raw mappings in two orbits of size 2;
the division count `4 / 2` and the dedup-list length are both 2. -/
theorem c5_division_eq_dedup_witness :
    (([[0, 1, 2], [2, 1, 0], [2, 3, 4], [4, 3, 2]] : List (List Int)).filter
        validMap).length / 2
      = (dedupMaps 3 [[0, 1, 2], [2, 1, 0], [2, 3, 4], [4, 3, 2]]).length :=
  c5_division_eq_dedup 3 2 [[0, 1, 2], [2, 1, 0], [2, 3, 4], [4, 3, 2]]
    [{0, 1, 2}, {2, 3, 4}] (by decide) (by decide) (by decide) (by decide)

end MCTools
